import Mathlib

/-!
Verification of the DCA performance-analyzer core of the acwi-spy repository:
schedule generation, price resolution, strategy simulation, XIRR calculation
with its fallback estimator, and strategy comparison.

Dates are modelled as day ordinals (`Nat`), matching Python's
`date.toordinal()`: ordinal 1 is a Monday and `weekday()` has Monday = 0.
Prices and money amounts are modelled as rationals.  Python exceptions are
modelled with an explicit error type and `Except`.
-/

namespace AcwiSpy

/-- The Python exception kinds observable in the analyzer. -/
inductive PyErr where
  | valueError
  | runtimeError
  | overflowError
  | zeroDivisionError
  | indexError
  deriving DecidableEq, Repr

/-- Python's `max` over a non-empty list of naturals (0 for the empty list,
which in Python would instead raise; callers guard non-emptiness). -/
def listMax : List Nat → Nat
  | [] => 0
  | x :: xs => xs.foldl max x

/-- Python's `min` over a non-empty list of naturals. -/
def listMin : List Nat → Nat
  | [] => 0
  | x :: xs => xs.foldl min x

/-- `sum(cf for cf in cash_flows if cf < 0)` (xirr_calculator.py line 41). -/
def negSum (cash_flows : List ℚ) : ℚ :=
  (cash_flows.filter (fun cf => cf < 0)).sum

/-- `sum(cf for cf in cash_flows if cf > 0)` (xirr_calculator.py line 42). -/
def posSum (cash_flows : List ℚ) : ℚ :=
  (cash_flows.filter (fun cf => cf > 0)).sum

/-- The exception classes named by `except (ValueError, RuntimeError,
OverflowError)` in xirr_calculator.py line 39. -/
def isCaughtByXirr : PyErr → Bool
  | .valueError => true
  | .runtimeError => true
  | .overflowError => true
  | _ => false

/-- The fallback estimator of xirr_calculator.py lines 40-53.  `max(dates)`
raises `ValueError` on an empty list, which here is only reached when
`total_invested` is non-zero. -/
def xirrFallback (cash_flows : List ℚ) (dates : List Nat) : Except PyErr ℚ :=
  let total_invested := negSum cash_flows
  let total_return := posSum cash_flows
  if total_invested = 0 then .ok 0
  else if dates = [] then .error .valueError
  else
    let years : ℚ := ((listMax dates : ℚ) - (listMin dates : ℚ)) / 365
    if years = 0 then .ok 0
    else
      let simple_return := total_return / |total_invested| - 1
      if years > 0 then .ok (simple_return / years) else .ok 0

/-- `XIRRCalculator.calculate_xirr` (xirr_calculator.py lines 26-53).  The
scipy Newton root-finder (seeded at guess 0.1, `maxiter=1000`) is an external
collaborator; its outcome is passed in as `newton_outcome`: `Except.ok r` when
it converges to `r`, `Except.error e` when it raises exception kind `e`.
`min(dates)` on an empty list raises `ValueError` inside the `try` block
before the root-finder can run. -/
def calculate_xirr (newton_outcome : Except PyErr ℚ) (cash_flows : List ℚ)
    (dates : List Nat) : Except PyErr ℚ :=
  let attempt : Except PyErr ℚ :=
    if dates = [] then .error .valueError else newton_outcome
  match attempt with
  | .ok rate => .ok rate
  | .error e => if isCaughtByXirr e then xirrFallback cash_flows dates else .error e

/-- Python `date.weekday()` on a day ordinal: ordinal 1 is a Monday and
Monday is weekday 0. -/
def weekday (d : Nat) : Nat := (d + 6) % 7

/-- performance_analyzer.py lines 40-42: `(3 - weekday) % 7` (Python's `%`
on a negative argument, hence `(3 + 7 - weekday) % 7` here), followed by the
literal — unsatisfiable — adjustment branch of lines 41-42. -/
def days_until_thursday (d : Nat) : Nat :=
  if (3 + 7 - weekday d) % 7 = 0 ∧ weekday d ≠ 3 then 7
  else (3 + 7 - weekday d) % 7

/-- performance_analyzer.py line 44. -/
def first_thursday (d : Nat) : Nat := d + days_until_thursday d

/-- The `while current_thursday <= end` loop of performance_analyzer.py
lines 47-50. -/
def thursdaysFrom (c e : Nat) : List Nat :=
  if h : c ≤ e then c :: thursdaysFrom (c + 7) e else []
termination_by e + 1 - c
decreasing_by omega

/-- `PerformanceAnalyzer.generate_thursdays` (performance_analyzer.py
lines 14-52). -/
def generate_thursdays (start_date end_date : Nat) : List Nat :=
  thursdaysFrom (first_thursday start_date) end_date

/-- One row of the price series: (date, close). -/
structure PricePoint where
  date : Nat
  close : ℚ
  deriving DecidableEq, Repr

/-- The `for i, stock_datetime in enumerate(...): if ... == d: return
Close[i]` scan pattern: first row carrying date `d`. -/
def findClose (stock_data : List PricePoint) (d : Nat) : Option ℚ :=
  (stock_data.find? (fun pt => pt.date = d)).map (fun pt => pt.close)

/-- `PerformanceAnalyzer._get_price_for_date` (performance_analyzer.py
lines 158-206). -/
def get_price_for_date (stock_data : List PricePoint) (target_date : Nat) :
    Option ℚ :=
  if stock_data = [] then none
  else
    let stock_dates := stock_data.map (fun pt => pt.date)
    if target_date ∈ stock_dates then findClose stock_data target_date
    else
      let available_dates := stock_dates.filter (fun d => d ≤ target_date)
      if available_dates ≠ [] then findClose stock_data (listMax available_dates)
      else if stock_dates ≠ [] then findClose stock_data (listMin stock_dates)
      else none

/-- One entry of `portfolio_timeline` (performance_analyzer.py lines 90-99;
the redundant `{symbol}_price` key repeats `price` and is omitted). -/
structure Snapshot where
  date : Nat
  investment_amount : ℚ
  price : ℚ
  shares_bought : ℚ
  total_shares : ℚ
  cumulative_invested : ℚ
  portfolio_value : ℚ
  deriving DecidableEq, Repr

/-- The mutable locals of `analyze_investment_strategy`'s loop
(performance_analyzer.py lines 67-72). -/
structure SimState where
  total_shares : ℚ
  total_invested : ℚ
  investments : List ℚ
  shares_purchased : List ℚ
  timeline : List Snapshot
  deriving DecidableEq, Repr

def initSimState : SimState :=
  { total_shares := 0, total_invested := 0, investments := [],
    shares_purchased := [], timeline := [] }

/-- One iteration of the `for inv_date in investment_dates` loop
(performance_analyzer.py lines 75-99). -/
def invest_step (stock_data : List PricePoint) (investment_amount : ℚ)
    (st : SimState) (inv_date : Nat) : SimState :=
  match get_price_for_date stock_data inv_date with
  | none => st
  | some price =>
    if price > 0 then
      let shares_bought := investment_amount / price
      let total_shares := st.total_shares + shares_bought
      let total_invested := st.total_invested + investment_amount
      { total_shares := total_shares
        total_invested := total_invested
        investments := st.investments ++ [investment_amount]
        shares_purchased := st.shares_purchased ++ [shares_bought]
        timeline := st.timeline ++
          [{ date := inv_date, investment_amount := investment_amount,
             price := price, shares_bought := shares_bought,
             total_shares := total_shares,
             cumulative_invested := total_invested,
             portfolio_value := total_shares * price }] }
    else st

/-- The whole investment loop of performance_analyzer.py lines 75-99. -/
def simulate_dates (stock_data : List PricePoint) (investment_amount : ℚ)
    (investment_dates : List Nat) : SimState :=
  investment_dates.foldl (invest_step stock_data investment_amount) initSimState

/-- `stock_data['Close'].iloc[-1] if not stock_data.empty else 0`
(performance_analyzer.py line 102). -/
def current_price_of (stock_data : List PricePoint) : ℚ :=
  match stock_data.getLast? with
  | some pt => pt.close
  | none => 0

/-- `total_invested / total_shares if total_shares > 0 else 0`
(performance_analyzer.py line 123). -/
def average_cost_of (st : SimState) : ℚ :=
  if st.total_shares > 0 then st.total_invested / st.total_shares else 0

/-- `stock_data.index[-1].date() if not stock_data.empty else
investment_dates[-1]` (performance_analyzer.py lines 113 and 135);
`investment_dates[-1]` raises `IndexError` on an empty list. -/
def final_date (stock_data : List PricePoint) (investment_dates : List Nat) :
    Except PyErr Nat :=
  match stock_data.getLast? with
  | some pt => .ok pt.date
  | none =>
    match investment_dates.getLast? with
    | some d => .ok d
    | none => .error .indexError

/-- The dictionary returned by `analyze_investment_strategy`
(performance_analyzer.py lines 142-156), with the display-only DataFrames
carried as plain lists. -/
structure AnalysisResult where
  symbol : String
  total_invested : ℚ
  total_shares : ℚ
  current_price : ℚ
  current_value : ℚ
  average_cost_per_share : ℚ
  total_return_pct : ℚ
  xirr : ℚ
  investments : List ℚ
  shares_purchased : List ℚ
  portfolio_timeline : List Snapshot
  number_of_investments : Nat
  deriving DecidableEq, Repr

/-- `PerformanceAnalyzer.analyze_investment_strategy` (performance_analyzer.py
lines 54-156).  `newton` abstracts the scipy root-finder consulted by
`calculate_xirr` on the assembled cash flows and dates.  The cash-flow
summary `pd.DataFrame` of lines 127-131 raises `ValueError` when its `date`
column (all requested investment dates) and its `amount`/`type` columns (one
entry per successful investment) differ in length, and the final-row date of
line 135 raises `IndexError` when both the series and the date list are
empty; both raises are modelled faithfully. -/
def analyze_investment_strategy (newton : List ℚ → List Nat → Except PyErr ℚ)
    (stock_data : List PricePoint) (investment_dates : List Nat)
    (investment_amount : ℚ) (symbol : String) : Except PyErr AnalysisResult :=
  let st := simulate_dates stock_data investment_amount investment_dates
  let current_price := current_price_of stock_data
  let current_value := st.total_shares * current_price
  let xirrE : Except PyErr ℚ :=
    if st.investments.length > 0 then
      let cash_flows := st.investments.map (fun amt => -amt) ++ [current_value]
      match final_date stock_data investment_dates with
      | .ok dlast =>
        calculate_xirr (newton cash_flows (investment_dates ++ [dlast]))
          cash_flows (investment_dates ++ [dlast])
      | .error e => .error e
    else .ok 0
  match xirrE with
  | .error e => .error e
  | .ok xirr =>
    let average_cost_per_share := average_cost_of st
    let total_return_pct :=
      if st.total_invested > 0 then (current_value / st.total_invested - 1) * 100
      else 0
    if investment_dates.length ≠ st.investments.length then .error .valueError
    else
      match final_date stock_data investment_dates with
      | .error e => .error e
      | .ok _ =>
        .ok { symbol := symbol
              total_invested := st.total_invested
              total_shares := st.total_shares
              current_price := current_price
              current_value := current_value
              average_cost_per_share := average_cost_per_share
              total_return_pct := total_return_pct
              xirr := xirr
              investments := st.investments
              shares_purchased := st.shares_purchased
              portfolio_timeline := st.timeline
              number_of_investments := st.investments.length }

/-- The dictionary returned by `PerformanceAnalyzer.compare_strategies`
(performance_analyzer.py lines 219-227). -/
structure ComparisonResult where
  strategy1_symbol : String
  strategy2_symbol : String
  value_difference : ℚ
  return_difference_pct : ℚ
  xirr_difference : ℚ
  better_strategy : String
  outperformance_pct : ℚ
  deriving DecidableEq, Repr

/-- `PerformanceAnalyzer.compare_strategies` (performance_analyzer.py
lines 208-227).  Python raises `ZeroDivisionError` on the
`outperformance_pct` division when the baseline current value is zero. -/
def compare_strategies (strategy1_results strategy2_results : AnalysisResult) :
    Except PyErr ComparisonResult :=
  if strategy1_results.current_value = 0 then .error .zeroDivisionError
  else
    .ok { strategy1_symbol := strategy1_results.symbol
          strategy2_symbol := strategy2_results.symbol
          value_difference :=
            strategy2_results.current_value - strategy1_results.current_value
          return_difference_pct :=
            strategy2_results.total_return_pct - strategy1_results.total_return_pct
          xirr_difference := strategy2_results.xirr - strategy1_results.xirr
          better_strategy :=
            if strategy2_results.xirr > strategy1_results.xirr then
              strategy2_results.symbol
            else strategy1_results.symbol
          outperformance_pct :=
            (strategy2_results.current_value / strategy1_results.current_value - 1)
              * 100 }

/-- An `AnalysisResult` with only the fields relevant to comparison filled in
(used for concrete test inputs). -/
def mkAnalysisResult (symbol : String) (current_value total_return_pct xirr : ℚ) :
    AnalysisResult :=
  { symbol := symbol, total_invested := 0, total_shares := 0, current_price := 0,
    current_value := current_value, average_cost_per_share := 0,
    total_return_pct := total_return_pct, xirr := xirr, investments := [],
    shares_purchased := [], portfolio_timeline := [], number_of_investments := 0 }

def resultA : AnalysisResult := mkAnalysisResult "ACWI" 1000 0 0

def resultB : AnalysisResult := mkAnalysisResult "SPY" 1200 0 0

def resultZero : AnalysisResult := mkAnalysisResult "ACWI" 0 0 0

/-- A four-week price series with a constant close of 100 (for the concrete
dollar-cost-averaging example). -/
def fourWeekSeries : List PricePoint :=
  [{ date := 7, close := 100 }, { date := 14, close := 100 },
   { date := 21, close := 100 }, { date := 28, close := 100 }]

def fourWeekDates : List Nat := [7, 14, 21, 28]

/-! ## Helper lemmas -/

theorem foldl_max_le_self (xs : List Nat) (a : Nat) : a ≤ xs.foldl max a := by
  induction xs generalizing a with
  | nil => exact le_refl a
  | cons x xs ih => exact le_trans (Nat.le_max_left a x) (ih (max a x))

theorem foldl_min_le_self (xs : List Nat) (a : Nat) : xs.foldl min a ≤ a := by
  induction xs generalizing a with
  | nil => exact le_refl a
  | cons x xs ih => exact le_trans (ih (min a x)) (Nat.min_le_left a x)

theorem listMin_le_listMax (l : List Nat) : listMin l ≤ listMax l := by
  cases l with
  | nil => exact le_refl 0
  | cons x xs => exact le_trans (foldl_min_le_self xs x) (foldl_max_le_self xs x)

theorem xirrFallback_ok (cash_flows : List ℚ) (dates : List Nat)
    (hd : dates ≠ []) : ∃ rate, xirrFallback cash_flows dates = .ok rate := by
  by_cases h1 : negSum cash_flows = 0
  · exact ⟨0, by simp [xirrFallback, h1]⟩
  · by_cases h2 : ((listMax dates : ℚ) - (listMin dates : ℚ)) / 365 = 0
    · exact ⟨0, by simp [xirrFallback, h1, hd, h2]⟩
    · have hpos : 0 < ((listMax dates : ℚ) - (listMin dates : ℚ)) / 365 := by
        have hle : (listMin dates : ℚ) ≤ (listMax dates : ℚ) := by
          exact_mod_cast listMin_le_listMax dates
        have h0 : 0 ≤ ((listMax dates : ℚ) - (listMin dates : ℚ)) / 365 :=
          div_nonneg (sub_nonneg.mpr hle) (by norm_num)
        exact lt_of_le_of_ne h0 (Ne.symm h2)
      refine ⟨(posSum cash_flows / |negSum cash_flows| - 1) /
        (((listMax dates : ℚ) - (listMin dates : ℚ)) / 365), ?_⟩
      simp [xirrFallback, h1, hd, h2, hpos]

theorem thursdaysFrom_forall (c e : Nat) :
    ∀ d ∈ thursdaysFrom c e, c ≤ d ∧ d ≤ e ∧ d % 7 = c % 7 := by
  induction c, e using thursdaysFrom.induct with
  | case1 c e h ih =>
    rw [thursdaysFrom.eq_def, dif_pos h]
    intro d hd
    rcases List.mem_cons.mp hd with h1 | h2
    · subst h1; omega
    · have := ih d h2
      omega
  | case2 c e h =>
    rw [thursdaysFrom.eq_def, dif_neg h]
    intro d hd
    simp at hd

theorem thursdaysFrom_head (c e : Nat) :
    (thursdaysFrom c e).head? = if c ≤ e then some c else none := by
  rw [thursdaysFrom.eq_def]
  split <;> simp

theorem thursdaysFrom_chain (c e : Nat) :
    List.Chain' (fun a b => a < b ∧ b = a + 7) (thursdaysFrom c e) := by
  induction c, e using thursdaysFrom.induct with
  | case1 c e h ih =>
    rw [thursdaysFrom.eq_def, dif_pos h]
    rw [List.chain'_cons']
    refine ⟨?_, ih⟩
    intro y hy
    rw [thursdaysFrom_head] at hy
    by_cases h7 : c + 7 ≤ e
    · rw [if_pos h7] at hy
      simp at hy
      omega
    · rw [if_neg h7] at hy
      simp at hy
  | case2 c e h =>
    rw [thursdaysFrom.eq_def, dif_neg h]
    exact List.chain'_nil

theorem thursdaysFrom_self_mem {c e : Nat} (h : c ≤ e) : c ∈ thursdaysFrom c e := by
  rw [thursdaysFrom.eq_def, dif_pos h]
  exact List.mem_cons_self c _

theorem weekday_lt (d : Nat) : weekday d < 7 :=
  Nat.mod_lt _ (by norm_num)

theorem days_until_thursday_eq (d : Nat) :
    days_until_thursday d = (3 + 7 - weekday d) % 7 := by
  have hw := weekday_lt d
  unfold days_until_thursday
  rw [if_neg]
  rintro ⟨h0, h3⟩
  omega

theorem first_thursday_weekday (d : Nat) : weekday (first_thursday d) = 3 := by
  have hw := weekday_lt d
  rw [first_thursday, days_until_thursday_eq]
  unfold weekday at *
  omega

theorem first_thursday_bounds (d : Nat) :
    d ≤ first_thursday d ∧ first_thursday d ≤ d + 6 := by
  have hw := weekday_lt d
  rw [first_thursday, days_until_thursday_eq]
  omega

theorem first_thursday_of_thursday {d : Nat} (h : weekday d = 3) :
    first_thursday d = d := by
  rw [first_thursday, days_until_thursday_eq, h]
  norm_num

theorem foldl_max_mem (xs : List Nat) (a : Nat) :
    xs.foldl max a = a ∨ xs.foldl max a ∈ xs := by
  induction xs generalizing a with
  | nil => exact Or.inl rfl
  | cons x xs ih =>
    rw [List.foldl_cons]
    rcases ih (max a x) with h | h
    · rcases max_choice a x with h2 | h2
      · exact Or.inl (by rw [h, h2])
      · exact Or.inr (by rw [h, h2]; exact List.mem_cons_self x xs)
    · exact Or.inr (List.mem_cons_of_mem x h)

theorem le_foldl_max (xs : List Nat) (a : Nat) : ∀ x ∈ xs, x ≤ xs.foldl max a := by
  induction xs generalizing a with
  | nil => intro x hx; simp at hx
  | cons y ys ih =>
    intro x hx
    rw [List.foldl_cons]
    rcases List.mem_cons.mp hx with h | h
    · subst h
      exact le_trans (Nat.le_max_right a x) (foldl_max_le_self ys (max a x))
    · exact ih (max a y) x h

theorem listMax_mem {l : List Nat} (h : l ≠ []) : listMax l ∈ l := by
  cases l with
  | nil => exact absurd rfl h
  | cons x xs =>
    rcases foldl_max_mem xs x with h1 | h1
    · rw [listMax, h1]; exact List.mem_cons_self x xs
    · exact List.mem_cons_of_mem x (by rw [listMax]; exact h1)

theorem le_listMax {l : List Nat} : ∀ x ∈ l, x ≤ listMax l := by
  cases l with
  | nil => intro x hx; simp at hx
  | cons y ys =>
    intro x hx
    rcases List.mem_cons.mp hx with h | h
    · subst h; exact foldl_max_le_self ys x
    · exact le_foldl_max ys y x h

theorem foldl_min_mem (xs : List Nat) (a : Nat) :
    xs.foldl min a = a ∨ xs.foldl min a ∈ xs := by
  induction xs generalizing a with
  | nil => exact Or.inl rfl
  | cons x xs ih =>
    rw [List.foldl_cons]
    rcases ih (min a x) with h | h
    · rcases min_choice a x with h2 | h2
      · exact Or.inl (by rw [h, h2])
      · exact Or.inr (by rw [h, h2]; exact List.mem_cons_self x xs)
    · exact Or.inr (List.mem_cons_of_mem x h)

theorem foldl_min_le (xs : List Nat) (a : Nat) : ∀ x ∈ xs, xs.foldl min a ≤ x := by
  induction xs generalizing a with
  | nil => intro x hx; simp at hx
  | cons y ys ih =>
    intro x hx
    rw [List.foldl_cons]
    rcases List.mem_cons.mp hx with h | h
    · subst h
      exact le_trans (foldl_min_le_self ys (min a x)) (Nat.min_le_right a x)
    · exact ih (min a y) x h

theorem listMin_mem {l : List Nat} (h : l ≠ []) : listMin l ∈ l := by
  cases l with
  | nil => exact absurd rfl h
  | cons x xs =>
    rcases foldl_min_mem xs x with h1 | h1
    · rw [listMin, h1]; exact List.mem_cons_self x xs
    · exact List.mem_cons_of_mem x (by rw [listMin]; exact h1)

theorem listMin_le {l : List Nat} : ∀ x ∈ l, listMin l ≤ x := by
  cases l with
  | nil => intro x hx; simp at hx
  | cons y ys =>
    intro x hx
    rcases List.mem_cons.mp hx with h | h
    · subst h; exact foldl_min_le_self ys x
    · exact foldl_min_le ys y x h

theorem pairwise_date_inj {sd : List PricePoint}
    (hs : List.Pairwise (fun a b => a.date < b.date) sd) :
    ∀ p ∈ sd, ∀ q ∈ sd, p.date = q.date → p = q := by
  induction sd with
  | nil => intro p hp; simp at hp
  | cons a l ih =>
    rw [List.pairwise_cons] at hs
    intro p hp q hq heq
    rcases List.mem_cons.mp hp with hp1 | hp2 <;>
      rcases List.mem_cons.mp hq with hq1 | hq2
    · rw [hp1, hq1]
    · exfalso; rw [hp1] at heq; have := hs.1 q hq2; omega
    · exfalso; rw [hq1] at heq; have := hs.1 p hp2; omega
    · exact ih hs.2 p hp2 q hq2 heq

theorem findClose_isSome {sd : List PricePoint} {d : Nat}
    (hd : d ∈ sd.map (fun pt => pt.date)) : ∃ c, findClose sd d = some c := by
  rw [List.mem_map] at hd
  obtain ⟨pt, hpt, hdd⟩ := hd
  have hsome : (sd.find? (fun pt => pt.date = d)).isSome = true :=
    List.find?_isSome.mpr ⟨pt, hpt, by simp [hdd]⟩
  obtain ⟨q, hq⟩ := Option.isSome_iff_exists.mp hsome
  exact ⟨q.close, by rw [findClose, hq]; rfl⟩

theorem findClose_mem {sd : List PricePoint} {d : Nat} {c : ℚ}
    (h : findClose sd d = some c) : ∃ pt ∈ sd, pt.close = c := by
  rw [findClose] at h
  cases hfind : sd.find? (fun pt => pt.date = d) with
  | none => rw [hfind] at h; simp at h
  | some q =>
    rw [hfind] at h
    simp only [Option.map_some'] at h
    exact ⟨q, List.mem_of_find?_eq_some hfind, by injection h⟩

theorem findClose_of_mem {sd : List PricePoint}
    (hs : List.Pairwise (fun a b => a.date < b.date) sd)
    {pt : PricePoint} (hpt : pt ∈ sd) :
    findClose sd pt.date = some pt.close := by
  have hsome : (sd.find? (fun q => q.date = pt.date)).isSome = true :=
    List.find?_isSome.mpr ⟨pt, hpt, by simp⟩
  obtain ⟨q, hq⟩ := Option.isSome_iff_exists.mp hsome
  have hqm := List.mem_of_find?_eq_some hq
  have hqd : q.date = pt.date := by simpa using List.find?_some hq
  rw [findClose, hq]
  rw [pairwise_date_inj hs q hqm pt hpt hqd]
  simp

theorem get_price_exact {sd : List PricePoint}
    (hs : List.Pairwise (fun a b => a.date < b.date) sd)
    {pt : PricePoint} (hpt : pt ∈ sd) {target : Nat} (ht : pt.date = target) :
    get_price_for_date sd target = some pt.close := by
  have hne : ¬sd = [] := by rintro rfl; simp at hpt
  have hmem : target ∈ sd.map (fun q => q.date) :=
    List.mem_map.mpr ⟨pt, hpt, ht⟩
  simp only [get_price_for_date, if_neg hne, if_pos hmem]
  rw [← ht]
  exact findClose_of_mem hs hpt

theorem get_price_prior {sd : List PricePoint}
    (hs : List.Pairwise (fun a b => a.date < b.date) sd) {target : Nat}
    (hnoex : ∀ q ∈ sd, q.date ≠ target)
    {pt : PricePoint} (hpt : pt ∈ sd) (hlt : pt.date < target)
    (hmax : ∀ q ∈ sd, q.date < target → q.date ≤ pt.date) :
    get_price_for_date sd target = some pt.close := by
  have hne : ¬sd = [] := by rintro rfl; simp at hpt
  have hnm : ¬target ∈ sd.map (fun q => q.date) := by
    rw [List.mem_map]
    rintro ⟨q, hq, hqd⟩
    exact hnoex q hq hqd
  have hmem : pt.date ∈ (sd.map (fun q => q.date)).filter (fun d => d ≤ target) := by
    rw [List.mem_filter]
    refine ⟨List.mem_map.mpr ⟨pt, hpt, rfl⟩, by simp; omega⟩
  have hav : (sd.map (fun q => q.date)).filter (fun d => d ≤ target) ≠ [] := by
    intro h
    rw [h] at hmem
    simp at hmem
  have hmaxeq :
      listMax ((sd.map (fun q => q.date)).filter (fun d => d ≤ target)) = pt.date := by
    have h1 := le_listMax _ hmem
    have h2 := listMax_mem hav
    rw [List.mem_filter] at h2
    obtain ⟨h2m, h2le⟩ := h2
    rw [List.mem_map] at h2m
    obtain ⟨r, hr, hrd⟩ := h2m
    have h2le' :
        listMax ((sd.map (fun q => q.date)).filter (fun d => d ≤ target)) ≤ target := by
      simpa using h2le
    have hrlt : r.date < target := lt_of_le_of_ne (hrd ▸ h2le') (hnoex r hr)
    have := hmax r hr hrlt
    omega
  simp only [get_price_for_date, if_neg hne, if_neg hnm, if_pos hav]
  rw [hmaxeq]
  exact findClose_of_mem hs hpt

theorem get_price_before_series {sd : List PricePoint}
    (hs : List.Pairwise (fun a b => a.date < b.date) sd) {target : Nat}
    (hall : ∀ q ∈ sd, target < q.date)
    {pt : PricePoint} (hpt : pt ∈ sd) (hmin : ∀ q ∈ sd, pt.date ≤ q.date) :
    get_price_for_date sd target = some pt.close := by
  have hne : ¬sd = [] := by rintro rfl; simp at hpt
  have hnm : ¬target ∈ sd.map (fun q => q.date) := by
    rw [List.mem_map]
    rintro ⟨q, hq, hqd⟩
    have := hall q hq
    omega
  have hav : (sd.map (fun q => q.date)).filter (fun d => d ≤ target) = [] := by
    rw [List.filter_eq_nil_iff]
    intro a ha
    rw [List.mem_map] at ha
    obtain ⟨q, hq, hqd⟩ := ha
    have := hall q hq
    simp
    omega
  have hmapne : sd.map (fun q => q.date) ≠ [] := by
    simp only [ne_eq, List.map_eq_nil_iff]
    exact hne
  have hmineq : listMin (sd.map (fun q => q.date)) = pt.date := by
    have hptm : pt.date ∈ sd.map (fun q => q.date) :=
      List.mem_map.mpr ⟨pt, hpt, rfl⟩
    have h1 := listMin_le _ hptm
    have h2 := listMin_mem hmapne
    rw [List.mem_map] at h2
    obtain ⟨r, hr, hrd⟩ := h2
    have := hmin r hr
    omega
  simp only [get_price_for_date, if_neg hne, if_neg hnm, hav, ne_eq,
    not_true_eq_false, if_false, if_pos hmapne]
  rw [hmineq]
  exact findClose_of_mem hs hpt

theorem get_price_total {sd : List PricePoint} (hne : ¬sd = []) (target : Nat) :
    ∃ p, get_price_for_date sd target = some p := by
  by_cases hmem : target ∈ sd.map (fun q => q.date)
  · obtain ⟨c, hc⟩ := findClose_isSome hmem
    exact ⟨c, by simp only [get_price_for_date, if_neg hne, if_pos hmem]; exact hc⟩
  · by_cases hav : (sd.map (fun q => q.date)).filter (fun d => d ≤ target) ≠ []
    · have h2 := listMax_mem hav
      rw [List.mem_filter] at h2
      obtain ⟨c, hc⟩ := findClose_isSome h2.1
      exact ⟨c, by
        simp only [get_price_for_date, if_neg hne, if_neg hmem, if_pos hav]
        exact hc⟩
    · have hmapne : sd.map (fun q => q.date) ≠ [] := by
        simp only [ne_eq, List.map_eq_nil_iff]
        exact hne
      obtain ⟨c, hc⟩ := findClose_isSome (listMin_mem hmapne)
      exact ⟨c, by
        simp only [get_price_for_date, if_neg hne, if_neg hmem, if_neg hav,
          if_pos hmapne]
        exact hc⟩

theorem mem_of_getLast?_mem {α : Type} {l : List α} {x : α}
    (h : x ∈ l.getLast?) : x ∈ l := by
  obtain ⟨hne, rfl⟩ := List.mem_getLast?_eq_getLast h
  exact List.getLast_mem hne

theorem invest_step_skip_iff (sd : List PricePoint) (amount : ℚ) (st : SimState)
    (d : Nat) :
    invest_step sd amount st d = st ↔
      (get_price_for_date sd d = none ∨
        ∃ p, get_price_for_date sd d = some p ∧ p ≤ 0) := by
  constructor
  · intro h
    cases hp : get_price_for_date sd d with
    | none => exact Or.inl rfl
    | some p =>
      by_cases hpos : p > 0
      · exfalso
        simp only [invest_step, hp, if_pos hpos] at h
        have hlen := congrArg (fun s : SimState => s.timeline.length) h
        simp at hlen
      · exact Or.inr ⟨p, rfl, not_lt.mp hpos⟩
  · rintro (hp | ⟨p, hp, hle⟩)
    · simp [invest_step, hp]
    · simp [invest_step, hp, not_lt.mpr hle]

theorem invest_step_success (sd : List PricePoint) (amount : ℚ) (st : SimState)
    (d : Nat) (p : ℚ) (hp : get_price_for_date sd d = some p) (hpos : 0 < p) :
    invest_step sd amount st d =
      { total_shares := st.total_shares + amount / p
        total_invested := st.total_invested + amount
        investments := st.investments ++ [amount]
        shares_purchased := st.shares_purchased ++ [amount / p]
        timeline := st.timeline ++
          [{ date := d, investment_amount := amount, price := p,
             shares_bought := amount / p,
             total_shares := st.total_shares + amount / p,
             cumulative_invested := st.total_invested + amount,
             portfolio_value := (st.total_shares + amount / p) * p }] } := by
  simp [invest_step, hp, hpos]

theorem timeline_value_invariant (sd : List PricePoint) (amount : ℚ) :
    ∀ (ds : List Nat) (st : SimState),
      (∀ s ∈ st.timeline, s.portfolio_value = s.total_shares * s.price) →
      ∀ s ∈ (ds.foldl (invest_step sd amount) st).timeline,
        s.portfolio_value = s.total_shares * s.price := by
  intro ds
  induction ds with
  | nil => intro st h; exact h
  | cons d ds ih =>
    intro st h
    rw [List.foldl_cons]
    apply ih
    cases hp : get_price_for_date sd d with
    | none => simpa [invest_step, hp] using h
    | some p =>
      by_cases hpos : p > 0
      · simp only [invest_step, hp, if_pos hpos]
        intro s hs
        rcases List.mem_append.mp hs with h1 | h2
        · exact h s h1
        · simp only [List.mem_singleton] at h2
          subst h2
          rfl
      · simpa [invest_step, hp, hpos] using h

theorem invest_step_totals (sd : List PricePoint) (amount : ℚ) (hamt : 0 < amount)
    (st : SimState) (d : Nat) :
    ((invest_step sd amount st d).total_shares = st.total_shares ∧
      (invest_step sd amount st d).total_invested = st.total_invested) ∨
    (st.total_shares < (invest_step sd amount st d).total_shares ∧
      st.total_invested < (invest_step sd amount st d).total_invested) := by
  cases hp : get_price_for_date sd d with
  | none => exact Or.inl (by simp [invest_step, hp])
  | some p =>
    by_cases hpos : p > 0
    · refine Or.inr ?_
      rw [invest_step_success sd amount st d p hp hpos]
      constructor
      · simpa using div_pos hamt hpos
      · simpa using hamt
    · exact Or.inl (by simp [invest_step, hp, hpos])

theorem timeline_chain_invariant (sd : List PricePoint) (amount : ℚ)
    (hamt : 0 < amount) :
    ∀ (ds : List Nat) (st : SimState),
      List.Chain' (fun s t : Snapshot => s.total_shares ≤ t.total_shares ∧
        s.cumulative_invested ≤ t.cumulative_invested) st.timeline →
      (∀ s ∈ st.timeline, s.total_shares ≤ st.total_shares ∧
        s.cumulative_invested ≤ st.total_invested) →
      List.Chain' (fun s t : Snapshot => s.total_shares ≤ t.total_shares ∧
        s.cumulative_invested ≤ t.cumulative_invested)
        ((ds.foldl (invest_step sd amount) st).timeline) ∧
      (∀ s ∈ (ds.foldl (invest_step sd amount) st).timeline,
        s.total_shares ≤ (ds.foldl (invest_step sd amount) st).total_shares ∧
        s.cumulative_invested ≤ (ds.foldl (invest_step sd amount) st).total_invested) := by
  intro ds
  induction ds with
  | nil => intro st hc hb; exact ⟨hc, hb⟩
  | cons d ds ih =>
    intro st hc hb
    rw [List.foldl_cons]
    cases hp : get_price_for_date sd d with
    | none =>
      have hst : invest_step sd amount st d = st := by simp [invest_step, hp]
      rw [hst]
      exact ih st hc hb
    | some p =>
      by_cases hpos : p > 0
      · rw [invest_step_success sd amount st d p hp hpos]
        have hdiv : 0 < amount / p := div_pos hamt hpos
        apply ih
        · rw [List.chain'_append]
          refine ⟨hc, List.chain'_singleton _, ?_⟩
          intro x hx y hy
          simp only [List.head?_cons, Option.mem_def, Option.some.injEq] at hy
          subst hy
          have hxb := hb x (mem_of_getLast?_mem hx)
          constructor
          · simp only
            linarith [hxb.1]
          · simp only
            linarith [hxb.2]
        · intro s hs
          rcases List.mem_append.mp hs with h1 | h2
          · have := hb s h1
            constructor
            · simp only
              linarith [this.1]
            · simp only
              linarith [this.2]
          · simp only [List.mem_singleton] at h2
            subst h2
            exact ⟨le_refl _, le_refl _⟩
      · have hst : invest_step sd amount st d = st := by
          simp [invest_step, hp, hpos]
        rw [hst]
        exact ih st hc hb


theorem analyze_ok_fields {newton : List ℚ → List Nat → Except PyErr ℚ}
    {sd : List PricePoint} {ds : List Nat} {amount : ℚ} {sym : String}
    {res : AnalysisResult}
    (h : analyze_investment_strategy newton sd ds amount sym = .ok res) :
    res.total_shares = (simulate_dates sd amount ds).total_shares ∧
    res.total_invested = (simulate_dates sd amount ds).total_invested ∧
    res.portfolio_timeline = (simulate_dates sd amount ds).timeline ∧
    res.current_price = current_price_of sd ∧
    res.current_value = res.total_shares * current_price_of sd ∧
    res.average_cost_per_share =
      (if res.total_shares > 0 then res.total_invested / res.total_shares else 0) := by
  simp only [analyze_investment_strategy] at h
  split at h
  · exact absurd h (by simp)
  · split at h
    · exact absurd h (by simp)
    · split at h
      · exact absurd h (by simp)
      · simp only [Except.ok.injEq] at h
        subst h
        refine ⟨rfl, rfl, rfl, rfl, rfl, ?_⟩
        simp [average_cost_of]

/-! ## Claim theorems -/

/-- C1: whenever the root-finder fails — it raises `ValueError`,
`RuntimeError` (divergence / hitting the 1000-iteration cap) or
`OverflowError`, exactly the classes the `except` clause catches —
`calculate_xirr` propagates no error to the caller: the failure is absorbed
by the fallback estimator and a numeric rate is returned. -/
theorem c1_xirr_absorbs_root_finding_failure (cash_flows : List ℚ)
    (dates : List Nat) (e : PyErr) (hd : dates ≠ [])
    (he : isCaughtByXirr e = true) :
    ∃ rate, calculate_xirr (.error e) cash_flows dates = .ok rate := by
  have h := xirrFallback_ok cash_flows dates hd
  simpa [calculate_xirr, hd, he] using h

theorem c1_xirr_absorbs_root_finding_failure_witness :
    (([0, 365] : List Nat) ≠ [] ∧ isCaughtByXirr .runtimeError = true) ∧
    ∃ rate, calculate_xirr (.error .runtimeError) [-1000, 1100] [0, 365] =
      .ok rate :=
  ⟨⟨by decide, by decide⟩,
   c1_xirr_absorbs_root_finding_failure [-1000, 1100] [0, 365] .runtimeError
     (by decide) (by decide)⟩

/-- C2: on the fallback path the returned rate is 0 when the (absolute) sum
of negative cash flows is 0, else 0 when the year span `(max − min)/365` is
0, else `((totalReturn / |totalInvested|) − 1) / years`; and with zero cash
flows (and hence no dates) the result is rate 0 without raising, whatever the
root-finder would have done. -/
theorem c2_fallback_rate_formula (cash_flows : List ℚ) (dates : List Nat)
    (e : PyErr) (he : isCaughtByXirr e = true)
    (hd : dates ≠ [] ∨ negSum cash_flows = 0) :
    (calculate_xirr (.error e) cash_flows dates =
      .ok (if |negSum cash_flows| = 0 then 0
           else if ((listMax dates : ℚ) - (listMin dates : ℚ)) / 365 = 0 then 0
           else (posSum cash_flows / |negSum cash_flows| - 1) /
                (((listMax dates : ℚ) - (listMin dates : ℚ)) / 365))) ∧
    ∀ outcome : Except PyErr ℚ, calculate_xirr outcome [] [] = .ok 0 := by
  constructor
  · by_cases h1 : negSum cash_flows = 0
    · have hfb : calculate_xirr (.error e) cash_flows dates =
          xirrFallback cash_flows dates := by
        by_cases hdd : dates = []
        · simp [calculate_xirr, hdd, isCaughtByXirr]
        · simp [calculate_xirr, hdd, he]
      rw [hfb]
      simp [xirrFallback, h1, abs_eq_zero]
    · have hdd : dates ≠ [] := hd.resolve_right h1
      have hfb : calculate_xirr (.error e) cash_flows dates =
          xirrFallback cash_flows dates := by
        simp [calculate_xirr, hdd, he]
      rw [hfb]
      have habs : ¬|negSum cash_flows| = 0 := by simpa [abs_eq_zero] using h1
      by_cases h2 : ((listMax dates : ℚ) - (listMin dates : ℚ)) / 365 = 0
      · simp [xirrFallback, h1, hdd, h2, habs]
      · have hpos : 0 < ((listMax dates : ℚ) - (listMin dates : ℚ)) / 365 := by
          have hle : (listMin dates : ℚ) ≤ (listMax dates : ℚ) := by
            exact_mod_cast listMin_le_listMax dates
          have h0 : 0 ≤ ((listMax dates : ℚ) - (listMin dates : ℚ)) / 365 :=
            div_nonneg (sub_nonneg.mpr hle) (by norm_num)
          exact lt_of_le_of_ne h0 (Ne.symm h2)
        simp [xirrFallback, h1, hdd, h2, habs, hpos]
  · intro outcome
    simp [calculate_xirr, xirrFallback, negSum, isCaughtByXirr]

theorem c2_fallback_rate_formula_witness :
    (isCaughtByXirr .runtimeError = true ∧
      (([0, 365] : List Nat) ≠ [] ∨ negSum [-1000, 1100] = 0)) ∧
    calculate_xirr (.error .runtimeError) [-1000, 1100] [0, 365] =
      .ok (1 / 10) := by
  refine ⟨⟨by decide, Or.inl (by decide)⟩, ?_⟩
  have h := (c2_fallback_rate_formula [-1000, 1100] [0, 365] .runtimeError
    (by decide) (Or.inl (by decide))).1
  rw [h]
  norm_num [negSum, posSum, listMax, listMin]

/-- C6: the comparator returns `outperformancePct = (valueB/valueA − 1) × 100`
whenever the baseline current value is non-zero, and raises the
division-by-zero error (surfaced, uncaught) whenever it is zero. -/
theorem c6_comparator_outperformance (r1 r2 : AnalysisResult) :
    (r1.current_value = 0 →
      compare_strategies r1 r2 = .error .zeroDivisionError) ∧
    (r1.current_value ≠ 0 →
      ∃ c, compare_strategies r1 r2 = .ok c ∧
        c.outperformance_pct = (r2.current_value / r1.current_value - 1) * 100) := by
  constructor
  · intro h
    simp [compare_strategies, h]
  · intro h
    unfold compare_strategies
    rw [if_neg h]
    exact ⟨_, rfl, rfl⟩

theorem c6_comparator_outperformance_witness :
    (resultZero.current_value = 0 ∧
      compare_strategies resultZero resultB = .error .zeroDivisionError) ∧
    (resultA.current_value ≠ 0 ∧
      ∃ c, compare_strategies resultA resultB = .ok c ∧
        c.outperformance_pct = 20) := by
  constructor
  · have h0 : resultZero.current_value = 0 := by
      norm_num [resultZero, mkAnalysisResult]
    exact ⟨h0, (c6_comparator_outperformance resultZero resultB).1 h0⟩
  · have h : resultA.current_value ≠ 0 := by
      norm_num [resultA, mkAnalysisResult]
    obtain ⟨c, hc, hpct⟩ := (c6_comparator_outperformance resultA resultB).2 h
    refine ⟨h, c, hc, ?_⟩
    rw [hpct]
    norm_num [resultA, resultB, mkAnalysisResult]

/-- C7: whenever the comparator returns (baseline value non-zero), the better
strategy is the one with the strictly higher XIRR, and a tie selects the
first strategy. -/
theorem c7_better_strategy_selection (r1 r2 : AnalysisResult)
    (h : r1.current_value ≠ 0) :
    ∃ c, compare_strategies r1 r2 = .ok c ∧
      c.better_strategy = if r1.xirr < r2.xirr then r2.symbol else r1.symbol := by
  unfold compare_strategies
  rw [if_neg h]
  exact ⟨_, rfl, rfl⟩

theorem c7_better_strategy_selection_witness :
    resultA.current_value ≠ 0 ∧
    ∃ c, compare_strategies resultA resultB = .ok c ∧
      c.better_strategy = "ACWI" := by
  have h : resultA.current_value ≠ 0 := by
    norm_num [resultA, mkAnalysisResult]
  obtain ⟨c, hc, hb⟩ := c7_better_strategy_selection resultA resultB h
  refine ⟨h, c, hc, ?_⟩
  rw [hb]
  simp [resultA, resultB, mkAnalysisResult]

/-- C5: for `startDate ≤ endDate` the generated schedule is strictly
increasing with consecutive dates exactly 7 days apart, every date is a
Thursday not exceeding `endDate`, the first date lies within
`[startDate, startDate + 6]`, a `startDate` that is itself a Thursday is
included, and if no Thursday lies in the range the result is the empty list
rather than an error. -/
theorem c5_generate_thursdays (start_date end_date : Nat)
    (h : start_date ≤ end_date) :
    List.Chain' (fun a b => a < b ∧ b = a + 7)
      (generate_thursdays start_date end_date) ∧
    (∀ d ∈ generate_thursdays start_date end_date,
      weekday d = 3 ∧ d ≤ end_date) ∧
    (∀ d, (generate_thursdays start_date end_date).head? = some d →
      start_date ≤ d ∧ d ≤ start_date + 6) ∧
    (weekday start_date = 3 →
      start_date ∈ generate_thursdays start_date end_date) ∧
    ((∀ d, start_date ≤ d → d ≤ end_date → weekday d ≠ 3) →
      generate_thursdays start_date end_date = []) := by
  have hb := first_thursday_bounds start_date
  have hw3 := first_thursday_weekday start_date
  simp only [generate_thursdays]
  refine ⟨thursdaysFrom_chain _ _, ?_, ?_, ?_, ?_⟩
  · intro d hd
    have hf := thursdaysFrom_forall _ _ d hd
    refine ⟨?_, hf.2.1⟩
    unfold weekday at hw3 ⊢
    omega
  · intro d hd
    rw [thursdaysFrom_head] at hd
    by_cases hle : first_thursday start_date ≤ end_date
    · rw [if_pos hle] at hd
      injection hd with hd
      omega
    · rw [if_neg hle] at hd
      exact absurd hd (by simp)
  · intro h3
    rw [first_thursday_of_thursday h3]
    exact thursdaysFrom_self_mem h
  · intro hnone
    by_cases hle : first_thursday start_date ≤ end_date
    · exact absurd hw3 (hnone _ hb.1 hle)
    · rw [thursdaysFrom.eq_def, dif_neg hle]

theorem c5_generate_thursdays_witness :
    (4 : Nat) ≤ 30 ∧ weekday 4 = 3 ∧ 4 ∈ generate_thursdays 4 30 := by
  have h := (c5_generate_thursdays 4 30 (by norm_num)).2.2.2.1 (by decide)
  exact ⟨by norm_num, by decide, h⟩

/-- C4: for a non-empty, date-sorted series the resolver always returns a
price, following the 3-tier policy: the close at an exact date match, else
the close of the latest series date before the target, else (target before
the whole series) the earliest date's close; and for the one-point series
(D, 100) it returns 100 at D, D − 5 and D + 5. -/
theorem c4_price_resolver (sd : List PricePoint) (target : Nat)
    (hne : sd ≠ []) (hs : List.Pairwise (fun a b => a.date < b.date) sd) :
    (∃ p, get_price_for_date sd target = some p) ∧
    (∀ pt ∈ sd, pt.date = target →
      get_price_for_date sd target = some pt.close) ∧
    ((∀ q ∈ sd, q.date ≠ target) → ∀ pt ∈ sd, pt.date < target →
      (∀ q ∈ sd, q.date < target → q.date ≤ pt.date) →
      get_price_for_date sd target = some pt.close) ∧
    ((∀ q ∈ sd, target < q.date) → ∀ pt ∈ sd, (∀ q ∈ sd, pt.date ≤ q.date) →
      get_price_for_date sd target = some pt.close) ∧
    (get_price_for_date [{ date := 1000, close := 100 }] 1000 = some 100 ∧
      get_price_for_date [{ date := 1000, close := 100 }] 995 = some 100 ∧
      get_price_for_date [{ date := 1000, close := 100 }] 1005 = some 100) :=
  ⟨get_price_total hne target,
   fun pt hpt ht => get_price_exact hs hpt ht,
   fun hnoex pt hpt hlt hmax => get_price_prior hs hnoex hpt hlt hmax,
   fun hall pt hpt hmin => get_price_before_series hs hall hpt hmin,
   by decide, by decide, by decide⟩

theorem c4_price_resolver_witness :
    (([{ date := 1000, close := 100 }] : List PricePoint) ≠ [] ∧
      List.Pairwise (fun a b : PricePoint => a.date < b.date)
        [{ date := 1000, close := 100 }]) ∧
    ∃ p, get_price_for_date [{ date := 1000, close := 100 }] 995 = some p := by
  refine ⟨⟨by simp, by simp⟩, ?_⟩
  exact (c4_price_resolver [{ date := 1000, close := 100 }] 995
    (by simp) (by simp)).1

/-- C10: every price the resolver returns is the close price of a point
actually stored in the series — no interpolation or fabrication. -/
theorem c10_resolver_returns_stored_close (sd : List PricePoint) (target : Nat)
    (p : ℚ) (h : get_price_for_date sd target = some p) :
    ∃ pt ∈ sd, pt.close = p := by
  by_cases hne : sd = []
  · rw [hne] at h
    simp [get_price_for_date] at h
  · simp only [get_price_for_date, if_neg hne] at h
    split at h
    · exact findClose_mem h
    · split at h
      · exact findClose_mem h
      · split at h
        · exact findClose_mem h
        · simp at h

theorem c10_resolver_returns_stored_close_witness :
    get_price_for_date [{ date := 1000, close := 100 }] 1005 = some 100 ∧
    ∃ pt ∈ ([{ date := 1000, close := 100 }] : List PricePoint), pt.close = 100 :=
  ⟨by decide,
   c10_resolver_returns_stored_close [{ date := 1000, close := 100 }] 1005 100
     (by decide)⟩

/-- C3: the simulator processes dates in order (a left fold), skips a date —
no snapshot and no error — exactly when resolution fails or the price is
non-positive, otherwise adds `amount/price` shares and `amount` invested and
emits a snapshot valued at that date's own resolved price; afterwards the
returned result has `currentValue = totalShares × last close` and
`averageCostPerShare = totalInvested/totalShares` (0 with no shares); the
four-week $1000-at-price-100 example yields 40 shares, 4000 invested,
average cost 100. -/
theorem c3_strategy_simulator (sd : List PricePoint) (amount : ℚ)
    (hamt : 0 < amount) :
    (∀ (st : SimState) (d : Nat), invest_step sd amount st d = st ↔
      (get_price_for_date sd d = none ∨
        ∃ p, get_price_for_date sd d = some p ∧ p ≤ 0)) ∧
    (∀ (st : SimState) (d : Nat) (p : ℚ),
      get_price_for_date sd d = some p → 0 < p →
      invest_step sd amount st d =
        { total_shares := st.total_shares + amount / p
          total_invested := st.total_invested + amount
          investments := st.investments ++ [amount]
          shares_purchased := st.shares_purchased ++ [amount / p]
          timeline := st.timeline ++
            [{ date := d, investment_amount := amount, price := p,
               shares_bought := amount / p,
               total_shares := st.total_shares + amount / p,
               cumulative_invested := st.total_invested + amount,
               portfolio_value := (st.total_shares + amount / p) * p }] }) ∧
    (∀ ds₁ ds₂ : List Nat, simulate_dates sd amount (ds₁ ++ ds₂) =
      ds₂.foldl (invest_step sd amount) (simulate_dates sd amount ds₁)) ∧
    (∀ ds : List Nat, ∀ s ∈ (simulate_dates sd amount ds).timeline,
      s.portfolio_value = s.total_shares * s.price) ∧
    (∀ (newton : List ℚ → List Nat → Except PyErr ℚ) (ds : List Nat)
      (sym : String) (res : AnalysisResult),
      analyze_investment_strategy newton sd ds amount sym = .ok res →
      res.total_shares = (simulate_dates sd amount ds).total_shares ∧
      res.total_invested = (simulate_dates sd amount ds).total_invested ∧
      res.current_value = res.total_shares * current_price_of sd ∧
      res.average_cost_per_share =
        (if res.total_shares > 0 then res.total_invested / res.total_shares
         else 0)) ∧
    ((simulate_dates fourWeekSeries 1000 fourWeekDates).total_shares = 40 ∧
      (simulate_dates fourWeekSeries 1000 fourWeekDates).total_invested = 4000 ∧
      average_cost_of (simulate_dates fourWeekSeries 1000 fourWeekDates) = 100) := by
  refine ⟨invest_step_skip_iff sd amount, ?_, ?_, ?_, ?_,
    by norm_num [simulate_dates, fourWeekDates, fourWeekSeries, invest_step,
      get_price_for_date, findClose, listMax, listMin, initSimState, List.cons_ne_nil],
    by norm_num [simulate_dates, fourWeekDates, fourWeekSeries, invest_step,
      get_price_for_date, findClose, listMax, listMin, initSimState, List.cons_ne_nil],
    by norm_num [simulate_dates, fourWeekDates, fourWeekSeries, invest_step,
      get_price_for_date, findClose, listMax, listMin, initSimState, average_cost_of,
      List.cons_ne_nil]⟩
  · intro st d p hp hpos
    exact invest_step_success sd amount st d p hp hpos
  · intro ds₁ ds₂
    rw [simulate_dates, simulate_dates, List.foldl_append]
  · intro ds
    exact timeline_value_invariant sd amount ds initSimState
      (by simp [initSimState])
  · intro newton ds sym res h
    obtain ⟨h1, h2, _, _, h5, h6⟩ := analyze_ok_fields h
    exact ⟨h1, h2, h5, h6⟩

theorem c3_strategy_simulator_witness :
    (0 : ℚ) < 1000 ∧
    ((simulate_dates fourWeekSeries 1000 fourWeekDates).total_shares = 40 ∧
      (simulate_dates fourWeekSeries 1000 fourWeekDates).total_invested = 4000 ∧
      average_cost_of (simulate_dates fourWeekSeries 1000 fourWeekDates) = 100) :=
  ⟨by norm_num, (c3_strategy_simulator fourWeekSeries 1000 (by norm_num)).2.2.2.2.2⟩

/-- C9: with a positive investment amount each processed date either leaves
the running totals unchanged (a skip) or strictly increases both, and along
the emitted snapshot sequence cumulative shares and cumulative invested never
decrease. -/
theorem c9_totals_monotone (sd : List PricePoint) (amount : ℚ)
    (hamt : 0 < amount) :
    (∀ (st : SimState) (d : Nat),
      ((invest_step sd amount st d).total_shares = st.total_shares ∧
        (invest_step sd amount st d).total_invested = st.total_invested) ∨
      (st.total_shares < (invest_step sd amount st d).total_shares ∧
        st.total_invested < (invest_step sd amount st d).total_invested)) ∧
    (∀ ds : List Nat, List.Chain'
      (fun s t : Snapshot => s.total_shares ≤ t.total_shares ∧
        s.cumulative_invested ≤ t.cumulative_invested)
      (simulate_dates sd amount ds).timeline) := by
  refine ⟨invest_step_totals sd amount hamt, ?_⟩
  intro ds
  exact (timeline_chain_invariant sd amount hamt ds initSimState
    (by simp [initSimState]) (by simp [initSimState])).1

theorem c9_totals_monotone_witness :
    (0 : ℚ) < 1000 ∧
    List.Chain'
      (fun s t : Snapshot => s.total_shares ≤ t.total_shares ∧
        s.cumulative_invested ≤ t.cumulative_invested)
      (simulate_dates fourWeekSeries 1000 fourWeekDates).timeline :=
  ⟨by norm_num,
   (c9_totals_monotone fourWeekSeries 1000 (by norm_num)).2 fourWeekDates⟩

/-- C8 (code bug): with an empty price series the loop itself skips every
date and all running totals stay zero, but `analyze_investment_strategy`
never returns the claimed zero-filled result: with a non-empty date list the
cash-flow summary DataFrame of lines 127-131 is built from a `date` column
of all requested dates and `amount`/`type` columns of successful investments
only, whose lengths differ, raising `ValueError`; with an empty date list
line 135's `investment_dates[-1]` raises `IndexError`. -/
theorem c8_empty_series_raises :
    (simulate_dates [] 1000 [5]).total_shares = 0 ∧
    (simulate_dates [] 1000 [5]).total_invested = 0 ∧
    (simulate_dates [] 1000 [5]).investments = [] ∧
    analyze_investment_strategy (fun _ _ => .ok 0) [] [5] 1000 "ACWI" =
      .error .valueError ∧
    analyze_investment_strategy (fun _ _ => .ok 0) [] [] 1000 "ACWI" =
      .error .indexError := by
  refine ⟨rfl, rfl, rfl, ?_, ?_⟩ <;> rfl

end AcwiSpy
